import Mathlib

/-!
Verification of the header-include resolver `Scripts/analyse_includes.py`.

The script walks a project tree, registers every `*.h` file (except
`*LinkDef.h`) relative to the base directory with a reference count of 0,
scans every source file for `#include` directives, resolves each directive
against the registry through an ordered sequence of rules, scans
`CMakeLists.txt` files for header tokens, and finally reports every header
whose count is still 0.

The embedding below models paths as plain strings (POSIX separators), the
registry as an insertion-ordered association list (Python dicts preserve
insertion order), and `pathlib` operations lexically (construction drops
`.` and empty components and keeps `..`; `resolve()` makes the path
absolute against the working directory and eliminates `..` — we assume a
symlink-free tree).
-/

/-- Python `p.startswith(q)` on strings (also `pathlib` string prefixes). -/
def strStarts (s p : String) : Bool := p.data.isPrefixOf s.data

/-- Python `p.endswith(q)`. -/
def strEnds (s p : String) : Bool := p.data.isSuffixOf s.data

/-- Python `s.removeprefix(p)`: drop `p` in front of `s` when present. -/
def removePre (s p : String) : String :=
  if strStarts s p then String.mk (s.data.drop p.data.length) else s

/-- Python `s.lstrip("./")`: drop every leading character that is `.` or `/`
(`lstrip` strips by character set, so leading `..` segments go too). -/
def lstripDotSlash (s : String) : String :=
  String.mk (s.data.dropWhile (fun c => c == '.' || c == '/'))

/-- Join strings with a separator (Python `sep.join`). -/
def joinSep (sep : String) : List String → String
  | [] => ""
  | [a] => a
  | a :: rest => a ++ sep ++ joinSep sep rest

/-- Split a character list on `/` (Python `s.split("/")`, empties kept). -/
def splitSlashAux : List Char → List Char → List String
  | [], cur => [String.mk cur.reverse]
  | c :: rest, cur =>
    if c == '/' then String.mk cur.reverse :: splitSlashAux rest []
    else splitSlashAux rest (c :: cur)

/-- Path components the way `pathlib`/`posixpath.commonpath` see them:
split on `/` and drop empty and `.` components (`..` is kept). -/
def pyComps (s : String) : List String :=
  (splitSlashAux s.data []).filter (fun c => c != "" && c != ".")

/-- Rebuild a path string from components (`pathlib` normal form):
an empty relative path prints as `.`, an empty absolute one as `/`. -/
def joinComps (isAbs : Bool) (cs : List String) : String :=
  if cs.isEmpty then (if isAbs then "/" else ".")
  else (if isAbs then "/" else "") ++ joinSep "/" cs

/-- Model of `str(PurePosixPath(s))`: drop `.` and empty components, keep `..`. -/
def normPath (s : String) : String := joinComps (strStarts s "/") (pyComps s)

/-- Model of `str(Path(a) / b)`: an absolute `b` replaces `a`, otherwise concatenate
and normalize the way `pathlib` does at construction. -/
def pyJoin (a b : String) : String :=
  if strStarts b "/" then normPath b else normPath (a ++ "/" ++ b)

/-- Eliminate `..` components left to right against an accumulator that
holds the already-emitted components in reverse (at the root a `..` is a
no-op, as in POSIX `realpath`). -/
def resolveAux : List String → List String → List String
  | acc, [] => acc.reverse
  | acc, c :: rest =>
    if c == ".." then resolveAux (acc.drop 1) rest
    else resolveAux (c :: acc) rest

/-- Model of `str(Path(s).resolve())` for a symlink-free tree: make `s` absolute
against the working directory `cwd` and eliminate `.` and `..`. -/
def pyResolve (cwd s : String) : String :=
  joinComps true (resolveAux [] (pyComps (if strStarts s "/" then s else cwd ++ "/" ++ s)))

/-- Model of `str(Path(s).parent)`: drop the last component. -/
def parentDir (s : String) : String :=
  joinComps (strStarts s "/") (pyComps s).dropLast

/-- Successively shorter proper prefixes of a component list, bounded by a
fuel argument (the list length). -/
def ancCompsAux : Nat → List String → List (List String)
  | 0, _ => []
  | n + 1, cs =>
    if cs.isEmpty then []
    else cs.dropLast :: ancCompsAux n cs.dropLast

/-- All proper ancestors of a component list, nearest first. -/
def ancComps (cs : List String) : List (List String) := ancCompsAux cs.length cs

/-- Model of `list(Path(s).parents)`: every proper ancestor of `s`, nearest first,
ending with `.` (relative paths) or `/` (absolute paths). -/
def parentsOf (s : String) : List String :=
  (ancComps (pyComps s)).map (joinComps (strStarts s "/"))

/-- Longest common prefix of two component lists. -/
def commonPrefixL : List String → List String → List String
  | a :: as, b :: bs => if a == b then a :: commonPrefixL as bs else []
  | _, _ => []

/-- Model of `len(os.path.commonpath((a, b)))` for two relative POSIX paths:
the character length of the joined common component prefix. -/
def commonpathLen (a b : String) : Nat :=
  (joinSep "/" (commonPrefixL (pyComps a) (pyComps b))).data.length

/-- The header registry `self.headers_local`: an insertion-ordered map from
project-relative header path to reference count. -/
abbrev Registry := List (String × Nat)

/-- The registry's key list, in insertion order. -/
def regKeys (reg : Registry) : List String := reg.map Prod.fst

/-- Model of `self.headers_local[key] += 1`: bump the entry holding `key`. -/
def incReg : Registry → String → Registry
  | [], _ => []
  | (k, c) :: rest, key =>
    if k == key then (k, c + 1) :: rest else (k, c) :: incReg rest key

/-- Look up the count stored for a key. -/
def lookupC (reg : Registry) (k : String) : Option Nat :=
  (reg.find? (fun p => p.1 == k)).map Prod.snd

/-- The candidate set: every registered path that ends with `/` followed by
the match text (source line 124). -/
def candidatesOf (reg : Registry) (t : String) : List String :=
  (regKeys reg).filter (fun h => strEnds h ("/" ++ t))

/-- The text used for candidate matching: the raw text, `lstrip`ped of
leading `.`/`/` characters when the directive is explicit-relative
(source lines 111-121). -/
def matchText (header : String) : String :=
  if strStarts header "." then lstripDotSlash header else header

/-- Constant state of one resolver run: the base directory as given, its
resolved absolute form, the working directory, and the verbosity flag. -/
structure ResolverCtx where
  base : String
  absBase : String
  cwd : String
  verbose : Bool
deriving DecidableEq

/-- An apostrophe, kept out of the source text as a character code. -/
def apos : String := String.singleton (Char.ofNat 39)

/-- Python `repr` of a list of strings, as printed by an f-string. -/
def pyListRepr (l : List String) : String :=
  "[" ++ joinSep ", " (l.map (fun s => apos ++ s ++ apos)) ++ "]"

/-- Diagnostic of source line 114. -/
def dExplicitRel (loc header : String) : String :=
  loc ++ ": Explicit relative path " ++ header ++ " [explicit-relative]"

/-- Diagnostic of source line 116. -/
def dSuspicious (loc header : String) : String :=
  loc ++ ": Not a header suffix in " ++ header ++ " [suspicious-suffix]"

/-- Diagnostic of source line 129. -/
def dNotFound (loc header : String) : String :=
  loc ++ ": Failed to find " ++ header ++ " [not-found]"

/-- Diagnostic of source line 132. -/
def dOkExternal (loc header : String) : String :=
  loc ++ ": External header " ++ header ++ " [ok-external]"

/-- Diagnostic of source line 140 — the closing bracket of the tag is
missing in the source, and the embedding reproduces that faithfully. -/
def dOkAbsolute (loc header : String) : String :=
  loc ++ ": Valid absolute path " ++ header ++ " [ok-absolute"

/-- Diagnostic of source line 152. -/
def dOkRelative (loc header h : String) : String :=
  loc ++ ": Valid relative path " ++ header ++ " to " ++ h ++ " [ok-relative]"

/-- Diagnostic of source line 166. -/
def dOkSpecial (loc header h : String) : String :=
  loc ++ ": Valid relative path " ++ header ++ " to " ++ h ++ " in a special directory [ok-special]"

/-- Diagnostic of source line 182. -/
def dIncompleteRel (loc header h : String) : String :=
  loc ++ ": Incomplete relative path " ++ header ++ " to " ++ h ++ " [incomplete-relative-path]"

/-- Diagnostic of source line 188. -/
def dWrongRel (loc header h : String) : String :=
  loc ++ ": Wrong relative path " ++ header ++ " to " ++ h ++ " [wrong-relative-path]"

/-- Diagnostic of source lines 194 and 223. -/
def dIncompleteAbs (loc header h : String) : String :=
  loc ++ ": Incomplete absolute path " ++ header ++ " to " ++ h ++ " [incomplete-absolute-path]"

/-- Diagnostic of source line 203. -/
def dMultiple (loc header : String) (cands : List String) : String :=
  loc ++ ": Found multiple candidates for " ++ header ++ ": " ++ pyListRepr cands ++ " [multiple-candidates]"

/-- Diagnostic of source line 222. -/
def dBest (loc header h : String) : String :=
  loc ++ ": Best candidate for " ++ header ++ ": " ++ h ++ " [best-candidate]"

/-- Diagnostic of source line 218. -/
def dAmbiguous (loc header : String) : String :=
  loc ++ ": Ambiguous path " ++ header ++ " [ambiguous]"

/-- Diagnostic of source line 228. -/
def dUnhandled (loc header : String) : String :=
  loc ++ ": Unhandled case " ++ header ++ " [error-exception]"

/-- Diagnostic of source line 82. -/
def dUnused (h : String) : String := h ++ ":0: Unused header [unused]"

/-- Diagnostic of source line 106. -/
def dCompiled (loc header : String) : String :=
  loc ++ ": Compiled header " ++ header ++ " [compiled]"

/-- The per-ancestor resolution `h_local` of source lines 176-179: resolve
the raw text against directory `d`, in resolved-absolute form for explicit
relative directives and by plain join otherwise, then strip the base. -/
def ancH (ctx : ResolverCtx) (expl : Bool) (header d : String) : String :=
  if expl then removePre (pyResolve ctx.cwd (pyJoin d header)) (ctx.absBase ++ "/")
  else removePre (pyJoin d header) (ctx.base ++ "/")

/-- First directory in the walk whose resolution lies in the candidate set
(source lines 180-186). -/
def firstMatch (f : String → String) (cands : List String) : List String → Option String
  | [] => none
  | d :: rest => if (f d) ∈ cands then some (f d) else firstMatch f cands rest

/-- The last `h_local` computed by the ancestor loop (the Python variable
keeps its final value for the wrong-relative-path message). -/
def lastHOf (f : String → String) (hInit : String) (ds : List String) : String :=
  ds.foldl (fun _ d => f d) hInit

/-- The directories the ancestor loop of source lines 173-175 reaches: the
walk stops at the first directory equal to `stop`.  In the source the
comparison is `directory == self.path_dir_base` between a `pathlib.Path`
and the string `str(dir_base) + "/"`; a `Path` never compares equal to a
`str`, and even on their strings no visited directory carries the trailing
slash, so the condition never holds and the walk runs to `.` or `/`. -/
def visitedDirs (stop : String) (dirs : List String) : List String :=
  dirs.takeWhile (fun d => d != stop)

/-- The per-candidate longest-common-path lengths of source lines 206-214:
`len(os.path.commonpath((candidate, self.path_local)))` for each candidate
in order. -/
def prefixLens (cands : List String) (pathLocal : String) : List Nat :=
  cands.map (fun c => commonpathLen c pathLocal)

/-- Model of `len_prefix_max` of source lines 206-213: the running maximum starting
from 0. -/
def maxPrefixLen (cands : List String) (pathLocal : String) : Nat :=
  (prefixLens cands pathLocal).foldl Nat.max 0

/-- Model of `candidates_h_local[index_prefix_max]` of source line 220: the source
updates the index only on a strict increase, so it lands on the first
position attaining the maximum. -/
def bestCandidate (cands : List String) (pathLocal : String) : String :=
  cands.getD ((prefixLens cands pathLocal).indexOf (maxPrefixLen cands pathLocal)) ""

/-- Outcome of processing one `#include` directive: the updated registry,
the printed diagnostics in order, and the final `is_local` / `is_found`
flags (`Resolver.__process_include`, source lines 109-228). -/
structure IncResult where
  reg : Registry
  diags : List String
  isLocal : Bool
  isFound : Bool
deriving DecidableEq

/-- The diagnostics printed before resolution proper: the
explicit-relative note of source line 114, when applicable. -/
def incDiags (header loc : String) : List String :=
  if strStarts header "." then [dExplicitRel loc header] else []

/-- The same-directory resolution of source lines 146-149. -/
def sameDirH (ctx : ResolverCtx) (pathLocal header : String) : String :=
  ancH ctx (strStarts header ".") header (parentDir (ctx.base ++ "/" ++ pathLocal))

/-- The ancestor directories the loop of source lines 173-186 examines. -/
def walkDirs (ctx : ResolverCtx) (pathLocal : String) : List String :=
  visitedDirs (ctx.base ++ "/") (parentsOf (parentDir (ctx.base ++ "/" ++ pathLocal)))

/-- Model of `Resolver.__process_include` (source lines 109-228), as a function of
the run context, the registry, the location string, the including file's
base-relative path and the raw include text. -/
def processInclude (ctx : ResolverCtx) (reg : Registry) (loc pathLocal header : String) : IncResult :=
  if strStarts header "." = true ∧ strEnds header ".h" = false then
    ⟨reg, [dExplicitRel loc header, dSuspicious loc header], false, false⟩
  else
    if candidatesOf reg (matchText header) = [] then
      if strStarts header "." then
        ⟨reg, incDiags header loc ++ [dNotFound loc header], true, false⟩
      else
        ⟨reg, if ctx.verbose then [dOkExternal loc header] else [], false, false⟩
    else
      if header ∈ regKeys reg then
        ⟨incReg reg header,
         incDiags header loc ++ (if ctx.verbose then [dOkAbsolute loc header] else []), true, true⟩
      else
        if sameDirH ctx pathLocal header ∈ regKeys reg then
          ⟨incReg reg (sameDirH ctx pathLocal header),
           incDiags header loc
             ++ (if ctx.verbose then [dOkRelative loc header (sameDirH ctx pathLocal header)] else []),
           true, true⟩
        else
          if strStarts header "." = false
              ∧ ((candidatesOf reg (matchText header)).filter
                  (fun h => strEnds h ("/include/" ++ header))).length = 1 then
            ⟨incReg reg (((candidatesOf reg (matchText header)).filter
                (fun h => strEnds h ("/include/" ++ header))).headD ""),
             incDiags header loc
               ++ (if ctx.verbose then
                    [dOkSpecial loc header (((candidatesOf reg (matchText header)).filter
                      (fun h => strEnds h ("/include/" ++ header))).headD "")]
                  else []),
             true, true⟩
          else
            match firstMatch (ancH ctx (strStarts header ".") header)
                (candidatesOf reg (matchText header)) (walkDirs ctx pathLocal) with
            | some h => ⟨incReg reg h, incDiags header loc ++ [dIncompleteRel loc header h], true, true⟩
            | none =>
              if strStarts header "." then
                ⟨reg,
                 incDiags header loc
                   ++ [dWrongRel loc header
                        (lastHOf (ancH ctx true header) (sameDirH ctx pathLocal header) (walkDirs ctx pathLocal))],
                 true, false⟩
              else
                if (candidatesOf reg (matchText header)).length = 1 then
                  ⟨incReg reg ((candidatesOf reg (matchText header)).headD ""),
                   incDiags header loc
                     ++ [dIncompleteAbs loc header ((candidatesOf reg (matchText header)).headD "")],
                   true, true⟩
                else
                  if 1 < (candidatesOf reg (matchText header)).length then
                    if maxPrefixLen (candidatesOf reg (matchText header)) pathLocal = 0
                        ∨ 1 < (prefixLens (candidatesOf reg (matchText header)) pathLocal).count
                              (maxPrefixLen (candidatesOf reg (matchText header)) pathLocal) then
                      ⟨reg,
                       incDiags header loc
                         ++ (if ctx.verbose then [dMultiple loc header (candidatesOf reg (matchText header))] else [])
                         ++ [dAmbiguous loc header],
                       true, false⟩
                    else
                      ⟨incReg reg (bestCandidate (candidatesOf reg (matchText header)) pathLocal),
                       incDiags header loc
                         ++ (if ctx.verbose then [dMultiple loc header (candidatesOf reg (matchText header))] else [])
                         ++ (if ctx.verbose then
                              [dBest loc header (bestCandidate (candidatesOf reg (matchText header)) pathLocal)]
                            else [])
                         ++ [dIncompleteAbs loc header (bestCandidate (candidatesOf reg (matchText header)) pathLocal)],
                       true, true⟩
                  else
                    ⟨reg, incDiags header loc ++ [dUnhandled loc header], true, false⟩

/-- The `h_local` of source lines 97-102: resolve a build-list token
against the build-list file's directory (resolved-absolute form when the
token starts with `.`, plain join otherwise) and strip the base. -/
def tokenH (ctx : ResolverCtx) (cmakeDir token : String) : String :=
  if strStarts token "." then removePre (pyResolve ctx.cwd (pyJoin cmakeDir token)) (ctx.absBase ++ "/")
  else removePre (pyJoin cmakeDir token) (ctx.base ++ "/")

/-- One header token of the `CMakeLists.txt` scan
(`Resolver.__check_compiled`, source lines 94-107): resolve the token
against the build-list file's directory and credit a registered header. -/
def processToken (ctx : ResolverCtx) (reg : Registry) (cmakeDir loc token : String) : Registry × List String :=
  if tokenH ctx cmakeDir token ∈ regKeys reg then
    (incReg reg (tokenH ctx cmakeDir token), if ctx.verbose then [dCompiled loc token] else [])
  else (reg, [])

/-- Model of `Resolver.__check_unused` (source lines 79-82): one `unused` line per
registry entry whose count is still 0, in registry iteration order. -/
def checkUnused (reg : Registry) : List String :=
  reg.filterMap (fun p => if p.2 == 0 then some (dUnused p.1) else none)

/-- The file filter of `Resolver.run` (source line 232): the regex
`^.+\.(h|cxx|cu|c|C)$` requires at least one character before the final
suffix. -/
def extOk (s e : String) : Bool :=
  strEnds s ("." ++ e) && decide (e.data.length + 2 ≤ s.data.length)

/-- A path accepted by the main walk's filename filter. -/
def isSourceFile (s : String) : Bool :=
  extOk s "h" || extOk s "cxx" || extOk s "cu" || extOk s "c" || extOk s "C"

/-- The order in which `Resolver.run` (source lines 230-235) visits files:
the `rglob` enumeration order filtered by the suffix pattern — no sort. -/
def walkOrder (enum : List String) : List String := enum.filter isSourceFile

/-- Lexicographic strict order on character lists by code point (the order
Python string comparison and `sorted` use). -/
def lexLtB : List Char → List Char → Bool
  | [], [] => false
  | [], _ :: _ => true
  | _ :: _, [] => false
  | a :: as, b :: bs =>
    if a.toNat < b.toNat then true
    else if b.toNat < a.toNat then false
    else lexLtB as bs

/-- Strict string order, Python style. -/
def strLtB (a b : String) : Bool := lexLtB a.data b.data

/-- Non-strict string order, Python style. -/
def strLeB (a b : String) : Bool := !(strLtB b a)

/-- A list of strings is in nondecreasing lexicographic order. -/
def chainLeB : List String → Bool
  | [] => true
  | [_] => true
  | a :: b :: rest => strLeB a b && chainLeB (b :: rest)

/-- Model of `PurePosixPath.parts`: the path's components, preceded by a
`/` entry when the path is absolute (so `Path("/a/b").parts` is
`("/", "a", "b")`). -/
def pathParts (s : String) : List String :=
  if strStarts s "/" then "/" :: pyComps s else pyComps s

/-- Lexicographic strict order on component lists, each component compared
as a string (Python tuple comparison over string elements). -/
def compsLtB : List String → List String → Bool
  | [], [] => false
  | [], _ :: _ => true
  | _ :: _, [] => false
  | a :: as, b :: bs =>
    if strLtB a b then true
    else if strLtB b a then false
    else compsLtB as bs

/-- Strict order on paths the way `pathlib.PurePath.__lt__` compares them
(Python 3.11): by the parts tuple, not by the path string — so
`proj/Tutorials/x` sorts before `proj/Tutorials-old` although the plain
strings compare the other way around. -/
def pathLtB (a b : String) : Bool := compsLtB (pathParts a) (pathParts b)

/-- Non-strict parts-tuple order on paths. -/
def pathLeB (a b : String) : Bool := !(pathLtB b a)

/-- Insert into a list sorted by parts-tuple order (auxiliary to the model
of Python `sorted` over `Path` objects). -/
def insertPLe (x : String) : List String → List String
  | [] => [x]
  | y :: ys => if pathLeB x y then x :: y :: ys else y :: insertPLe x ys

/-- Model of Python `sorted` over `Path` objects: stable insertion sort by
the parts-tuple order `pathLeB`. -/
def sortPLe : List String → List String
  | [] => []
  | x :: xs => insertPLe x (sortPLe xs)

/-- A list of paths is in nondecreasing parts-tuple order. -/
def pathChainLeB : List String → Bool
  | [] => true
  | [_] => true
  | a :: b :: rest => pathLeB a b && pathChainLeB (b :: rest)

/-- The order in which `Resolver.__check_compiled` (source line 85) visits
build-list files: the matching paths, sorted as `Path` objects. -/
def cmakeOrder (enum : List String) : List String :=
  sortPLe (enum.filter (fun p => strEnds p "CMakeLists.txt"))

/-- Index of the last `"` or `>` in a character list, if any. -/
def lastCloser (l : List Char) : Option Nat :=
  match l.reverse.findIdx? (fun c => c == '"' || c == '>') with
  | some j => some (l.length - 1 - j)
  | none => none

/-- The include-line recognizer of `Resolver.run` (source line 238):
`re.match(r"#include ([\"<])(.+)[\">]", line)` anchored at column 0; the
greedy `.+` makes the payload end just before the last `"` or `>`. -/
def matchIncludeL (l : List Char) : Option (Char × List Char) :=
  if ("#include ".data).isPrefixOf l then
    match l.drop 9 with
    | [] => none
    | d :: tail =>
      if d == '"' || d == '<' then
        match lastCloser tail with
        | some k => if 1 ≤ k then some (d, tail.take k) else none
        | none => none
      else none
  else none

/-- String-level wrapper of the include-line recognizer: the delimiter
(group 1) and the raw include text (group 2). -/
def matchInclude (line : String) : Option (Char × String) :=
  match matchIncludeL line.data with
  | some (c, h) => some (c, String.mk h)
  | none => none

/-- Spec-worded stripping for comparison: remove leading `./` segments
only, leaving `..` segments in place (the claim's reading of the spec
sentence, to be compared with the source's `lstrip("./")`). -/
def specStripAux : List Char → List Char
  | '.' :: '/' :: rest => specStripAux rest
  | l => l

/-- Spec-worded variant of `matchText`'s stripping (see `specStripAux`). -/
def specStripDotSegs (s : String) : String := String.mk (specStripAux s.data)

/-- C1: an include whose raw text equals a registered header path exactly,
with no other registered path ending in `/` + that text, is treated as an
external header with no registry credit — the candidate filter of source
line 124 only accepts strictly longer paths, so the exact-absolute-match
rule of line 138 is never reached, contrary to the claim (and to the
script's own covered-cases comment, lines 25-26). -/
theorem c1_exact_absolute_include_treated_as_external :
    processInclude ⟨"proj", "/w/proj", "/w", true⟩ [("Module/Header.h", 0)] "proj/f.cxx:7" "f.cxx" "Module/Header.h"
      = ⟨[("Module/Header.h", 0)], ["proj/f.cxx:7: External header Module/Header.h [ok-external]"], false, false⟩ := by
  decide

/-- C3: for base directory `proj` and including file `proj/A/B/f.cxx`, the
ancestor walk visits `proj/A`, then the base directory `proj` itself, then
`.` outside the project — the break of source line 174 compares a
`pathlib.Path` with the string `proj/` and never fires, contrary to the
claim that only directories strictly inside the base are visited. -/
theorem c3_ancestor_walk_reaches_base_and_beyond :
    visitedDirs ("proj" ++ "/") (parentsOf (parentDir ("proj" ++ "/" ++ "A/B/f.cxx"))) = ["proj/A", "proj", "."]
    ∧ "proj" ∈ visitedDirs ("proj" ++ "/") (parentsOf (parentDir ("proj" ++ "/" ++ "A/B/f.cxx"))) := by
  decide

/-- C9: the valid-absolute-path note of source line 140 is printed as
`... [ok-absolute` — the closing bracket of the tag is missing, so this
diagnostic does not end with a bracketed tag, contrary to the claim. -/
theorem c9_ok_absolute_diag_missing_bracket :
    (processInclude ⟨"proj", "/w/proj", "/w", true⟩ [("Mod/H.h", 0), ("A/Mod/H.h", 0)] "proj/f.cxx:1" "f.cxx" "Mod/H.h"
      = ⟨[("Mod/H.h", 1), ("A/Mod/H.h", 0)], ["proj/f.cxx:1: Valid absolute path Mod/H.h [ok-absolute"], true, true⟩)
    ∧ strEnds (dOkAbsolute "proj/f.cxx:1" "Mod/H.h") "]" = false := by
  decide

/-- C4 counterexample: for the directive text `../X.h` the source's
`lstrip("./")` removes the leading `..` segment as well, so the text used
for candidate matching is `X.h`, not the spec-worded `../X.h`, and the
candidate sets differ on a one-entry registry. -/
theorem c4_counterexample_dotdot_stripped :
    matchText "../X.h" = "X.h"
    ∧ specStripDotSegs "../X.h" = "../X.h"
    ∧ matchText "../X.h" ≠ specStripDotSegs "../X.h"
    ∧ candidatesOf [("A/X.h", 0)] (matchText "../X.h") = ["A/X.h"]
    ∧ candidatesOf [("A/X.h", 0)] (specStripDotSegs "../X.h") = [] := by
  decide

/-- C5 counterexample: with the registry enumerated as `B.h` before `A.h`
(the startup scan's order is the filesystem's, not sorted), the unused
report lists `B.h` before `A.h`, which is not lexicographic order. -/
theorem c5_counterexample_not_lexicographic :
    checkUnused [("B.h", 0), ("A.h", 0)] = [dUnused "B.h", dUnused "A.h"]
    ∧ strLtB (dUnused "A.h") (dUnused "B.h") = true
    ∧ chainLeB (checkUnused [("B.h", 0), ("A.h", 0)]) = false := by
  decide

/-- C6 counterexample: the main walk visits files in the enumeration's own
order; for an enumeration listing `proj/b.cxx` before `proj/a.cxx` the
processed order is not sorted. -/
theorem c6_counterexample_walk_not_sorted :
    walkOrder ["proj/b.cxx", "proj/a.cxx"] = ["proj/b.cxx", "proj/a.cxx"]
    ∧ strLtB "proj/a.cxx" "proj/b.cxx" = true
    ∧ chainLeB (walkOrder ["proj/b.cxx", "proj/a.cxx"]) = false := by
  decide

/-- C7: a directive that is not explicit-relative and has an empty
candidate set is reported (at most) with the informational external-header
note, leaves every registry count unchanged, and stays not-local
(source lines 127-133). -/
theorem c7_external_header_no_effect (ctx : ResolverCtx) (reg : Registry) (loc pathLocal header : String)
    (hs : strStarts header "." = false) (hc : candidatesOf reg header = []) :
    processInclude ctx reg loc pathLocal header
      = ⟨reg, if ctx.verbose then [dOkExternal loc header] else [], false, false⟩ := by
  simp [processInclude, matchText, hs, hc]

/-- Witness for C7: `#include <vector>` against a one-entry registry. -/
theorem c7_external_header_no_effect_witness :
    processInclude ⟨"proj", "/w/proj", "/w", true⟩ [("A/B.h", 0)] "proj/f.cxx:1" "f.cxx" "vector"
      = ⟨[("A/B.h", 0)], ["proj/f.cxx:1: External header vector [ok-external]"], false, false⟩ := by
  have h := c7_external_header_no_effect ⟨"proj", "/w/proj", "/w", true⟩ [("A/B.h", 0)]
    "proj/f.cxx:1" "f.cxx" "vector" (by decide) (by decide)
  rw [h]
  rfl

/-- Incrementing a key keeps the key list unchanged. -/
theorem regKeys_incReg (reg : Registry) (x : String) : regKeys (incReg reg x) = regKeys reg := by
  induction reg with
  | nil => rfl
  | cons p rest ih =>
    obtain ⟨k, c⟩ := p
    by_cases h : (k == x) = true
    · simp [incReg, h, regKeys]
    · simp only [incReg, if_neg h, regKeys, List.map_cons]
      simpa [regKeys] using ih

/-- Incrementing a key changes each stored count by zero or one. -/
theorem lookupC_incReg (reg : Registry) (x k : String) :
    lookupC (incReg reg x) k = lookupC reg k
    ∨ lookupC (incReg reg x) k = (lookupC reg k).map (· + 1) := by
  induction reg with
  | nil => left; rfl
  | cons p rest ih =>
    obtain ⟨a, c⟩ := p
    by_cases hax : (a == x) = true
    · by_cases hak : (a == k) = true
      · right; simp [incReg, hax, lookupC, hak]
      · left; simp [incReg, hax, lookupC, hak]
    · by_cases hak : (a == k) = true
      · left; simp [incReg, hax, lookupC, hak]
      · simpa [incReg, hax, lookupC, hak] using ih

/-- Every branch of `__process_include` returns the registry unchanged or
bumped at a single key. -/
theorem processInclude_reg_shape (ctx : ResolverCtx) (reg : Registry) (loc pathLocal header : String) :
    (processInclude ctx reg loc pathLocal header).reg = reg
    ∨ ∃ x, (processInclude ctx reg loc pathLocal header).reg = incReg reg x := by
  by_cases hS : strStarts header "." = true
  · by_cases hE : strEnds header ".h" = false
    · left; simp [processInclude, hS, hE]
    · by_cases h2 : candidatesOf reg (matchText header) = []
      · left; simp [processInclude, hS, hE, h2]
      · by_cases h3 : header ∈ regKeys reg
        · right; exact ⟨header, by simp [processInclude, hS, hE, h2, h3]⟩
        · by_cases h4 : sameDirH ctx pathLocal header ∈ regKeys reg
          · right; exact ⟨sameDirH ctx pathLocal header, by simp [processInclude, hS, hE, h2, h3, h4]⟩
          · cases hFM : firstMatch (ancH ctx true header)
                (candidatesOf reg (matchText header)) (walkDirs ctx pathLocal) with
            | some h => right; exact ⟨h, by simp [processInclude, hS, hE, h2, h3, h4, hFM]⟩
            | none => left; simp [processInclude, hS, hE, h2, h3, h4, hFM]
  · by_cases h2 : candidatesOf reg (matchText header) = []
    · left; simp [processInclude, hS, h2]
    · by_cases h3 : header ∈ regKeys reg
      · right; exact ⟨header, by simp [processInclude, hS, h2, h3]⟩
      · by_cases h4 : sameDirH ctx pathLocal header ∈ regKeys reg
        · right; exact ⟨sameDirH ctx pathLocal header, by simp [processInclude, hS, h2, h3, h4]⟩
        · by_cases h5 : ((candidatesOf reg (matchText header)).filter
              (fun h => strEnds h ("/include/" ++ header))).length = 1
          · right
            exact ⟨((candidatesOf reg (matchText header)).filter
              (fun h => strEnds h ("/include/" ++ header))).headD "",
              by simp [processInclude, hS, h2, h3, h4, h5]⟩
          · cases hFM : firstMatch (ancH ctx false header)
                (candidatesOf reg (matchText header)) (walkDirs ctx pathLocal) with
            | some h => right; exact ⟨h, by simp [processInclude, hS, h2, h3, h4, h5, hFM]⟩
            | none =>
              by_cases h7 : (candidatesOf reg (matchText header)).length = 1
              · right
                exact ⟨(candidatesOf reg (matchText header)).headD "",
                  by simp [processInclude, hS, h2, h3, h4, h5, hFM, h7]⟩
              · by_cases h8 : 1 < (candidatesOf reg (matchText header)).length
                · by_cases h9 : maxPrefixLen (candidatesOf reg (matchText header)) pathLocal = 0
                      ∨ 1 < (prefixLens (candidatesOf reg (matchText header)) pathLocal).count
                            (maxPrefixLen (candidatesOf reg (matchText header)) pathLocal)
                  · left; simp [processInclude, hS, h2, h3, h4, h5, hFM, h7, h8, h9]
                  · right
                    exact ⟨bestCandidate (candidatesOf reg (matchText header)) pathLocal,
                      by simp [processInclude, hS, h2, h3, h4, h5, hFM, h7, h8, h9]⟩
                · left; simp [processInclude, hS, h2, h3, h4, h5, hFM, h7, h8]

/-- Every branch of the token scan returns the registry unchanged or
bumped at a single key. -/
theorem processToken_reg_shape (ctx : ResolverCtx) (reg : Registry) (cmakeDir loc token : String) :
    (processToken ctx reg cmakeDir loc token).1 = reg
    ∨ ∃ x, (processToken ctx reg cmakeDir loc token).1 = incReg reg x := by
  by_cases h : tokenH ctx cmakeDir token ∈ regKeys reg
  · right; exact ⟨tokenH ctx cmakeDir token, by simp [processToken, h]⟩
  · left; simp [processToken, h]

/-- C8: processing an include directive and scanning a build-list token
both preserve the registry's key set and change each entry's count by at
most one non-negative step — counts are never decremented and entries are
never removed. -/
theorem c8_registry_monotone (ctx : ResolverCtx) (reg : Registry)
    (loc pathLocal header cmakeDir tloc token : String) :
    (regKeys (processInclude ctx reg loc pathLocal header).reg = regKeys reg
      ∧ ∀ k, lookupC (processInclude ctx reg loc pathLocal header).reg k = lookupC reg k
          ∨ lookupC (processInclude ctx reg loc pathLocal header).reg k = (lookupC reg k).map (· + 1))
    ∧ (regKeys (processToken ctx reg cmakeDir tloc token).1 = regKeys reg
      ∧ ∀ k, lookupC (processToken ctx reg cmakeDir tloc token).1 k = lookupC reg k
          ∨ lookupC (processToken ctx reg cmakeDir tloc token).1 k = (lookupC reg k).map (· + 1)) := by
  constructor
  · rcases processInclude_reg_shape ctx reg loc pathLocal header with h | ⟨x, h⟩
    · rw [h]; exact ⟨rfl, fun k => Or.inl rfl⟩
    · rw [h]; exact ⟨regKeys_incReg reg x, fun k => lookupC_incReg reg x k⟩
  · rcases processToken_reg_shape ctx reg cmakeDir tloc token with h | ⟨x, h⟩
    · rw [h]; exact ⟨rfl, fun k => Or.inl rfl⟩
    · rw [h]; exact ⟨regKeys_incReg reg x, fun k => lookupC_incReg reg x k⟩

/-- C2: for a bare directive with more than one candidate that no earlier
rule resolved, the multi-candidate stage (source lines 199-226) reports
`ambiguous` and leaves the registry unchanged when the maximum
common-prefix length is zero or attained more than once, and otherwise
increments exactly the unique longest-prefix candidate with an
`incomplete absolute path` diagnostic. -/
theorem c2_multi_candidate_disambiguation (ctx : ResolverCtx) (reg : Registry) (loc pathLocal header : String)
    (hS : strStarts header "." = false)
    (hlen : 1 < (candidatesOf reg header).length)
    (hex : header ∉ regKeys reg)
    (hsd : sameDirH ctx pathLocal header ∉ regKeys reg)
    (hspec : ((candidatesOf reg header).filter (fun h => strEnds h ("/include/" ++ header))).length ≠ 1)
    (hanc : firstMatch (ancH ctx false header) (candidatesOf reg header) (walkDirs ctx pathLocal) = none) :
    ((maxPrefixLen (candidatesOf reg header) pathLocal = 0
        ∨ 1 < (prefixLens (candidatesOf reg header) pathLocal).count
              (maxPrefixLen (candidatesOf reg header) pathLocal))
      → (processInclude ctx reg loc pathLocal header).reg = reg
        ∧ dAmbiguous loc header ∈ (processInclude ctx reg loc pathLocal header).diags
        ∧ (processInclude ctx reg loc pathLocal header).isFound = false)
    ∧ (¬ (maxPrefixLen (candidatesOf reg header) pathLocal = 0
        ∨ 1 < (prefixLens (candidatesOf reg header) pathLocal).count
              (maxPrefixLen (candidatesOf reg header) pathLocal))
      → (processInclude ctx reg loc pathLocal header).reg
          = incReg reg (bestCandidate (candidatesOf reg header) pathLocal)
        ∧ dIncompleteAbs loc header (bestCandidate (candidatesOf reg header) pathLocal)
            ∈ (processInclude ctx reg loc pathLocal header).diags
        ∧ (processInclude ctx reg loc pathLocal header).isFound = true) := by
  have hS' : ¬ strStarts header "." = true := by simp [hS]
  have h2 : ¬ candidatesOf reg header = [] := by
    intro h; rw [h] at hlen; simp at hlen
  have h7 : ¬ (candidatesOf reg header).length = 1 := by omega
  have hmt : matchText header = header := by simp [matchText, hS]
  constructor <;> intro hcond
  · refine ⟨?_, ?_, ?_⟩ <;>
      simp [processInclude, incDiags, hmt, hS', h2, hex, hsd, hspec, hanc, h7, hlen, hcond]
  · refine ⟨?_, ?_, ?_⟩ <;>
      simp [processInclude, incDiags, hmt, hS', h2, hex, hsd, hspec, hanc, h7, hlen, hcond]

/-- Witness for C2: registry `A/P/D/X.h`, `B/D/X.h`, include `D/X.h` from
`A/Q/f.cxx` — the unique longest-prefix candidate `A/P/D/X.h` is
credited. -/
theorem c2_multi_candidate_disambiguation_witness :
    (processInclude ⟨"proj", "/w/proj", "/w", true⟩ [("A/P/D/X.h", 0), ("B/D/X.h", 0)]
        "proj/A/Q/f.cxx:3" "A/Q/f.cxx" "D/X.h").reg = [("A/P/D/X.h", 1), ("B/D/X.h", 0)]
    ∧ dIncompleteAbs "proj/A/Q/f.cxx:3" "D/X.h" "A/P/D/X.h"
        ∈ (processInclude ⟨"proj", "/w/proj", "/w", true⟩ [("A/P/D/X.h", 0), ("B/D/X.h", 0)]
            "proj/A/Q/f.cxx:3" "A/Q/f.cxx" "D/X.h").diags := by
  have T := c2_multi_candidate_disambiguation ⟨"proj", "/w/proj", "/w", true⟩
    [("A/P/D/X.h", 0), ("B/D/X.h", 0)] "proj/A/Q/f.cxx:3" "A/Q/f.cxx" "D/X.h"
    (by decide) (by decide) (by decide) (by decide) (by decide) (by decide)
  have T2 := T.2 (by decide)
  have hb : bestCandidate (candidatesOf [("A/P/D/X.h", 0), ("B/D/X.h", 0)] "D/X.h") "A/Q/f.cxx"
      = "A/P/D/X.h" := by decide
  refine ⟨?_, ?_⟩
  · rw [T2.1, hb]; decide
  · have hm := T2.2.1
    rw [hb] at hm
    exact hm

/-- The first character surviving `dropWhile` fails the predicate. -/
theorem dropWhile_head_not (p : Char → Bool) (l : List Char) :
    ∀ c, (l.dropWhile p).head? = some c → p c = false := by
  induction l with
  | nil => intro c h; simp at h
  | cons a rest ih =>
    intro c h
    by_cases hp : p a = true
    · simp only [List.dropWhile, hp, if_true] at h
      exact ih c h
    · simp only [List.dropWhile, hp, if_false] at h
      simp only [Bool.not_eq_true] at hp
      simp at h
      subst h
      exact hp

/-- C4 (amended): for a `.`-directive the matching text is the raw text
with every leading `.` or `/` character removed (so leading `..` segments
go too); the stripped text is a suffix of the raw text whose removed part
is all dots and slashes and whose own first character is neither; a bare
directive matches on the raw text; the candidate set is the registered
paths ending in `/` + the match text. -/
theorem c4_amended_strip_all_leading_dots (h : String) (reg : Registry) :
    (strStarts h "." = false → matchText h = h)
    ∧ (strStarts h "." = true →
        h.data = h.data.takeWhile (fun c => c == '.' || c == '/') ++ (matchText h).data
        ∧ (∀ c ∈ h.data.takeWhile (fun c => c == '.' || c == '/'), (c == '.' || c == '/') = true)
        ∧ (∀ c, (matchText h).data.head? = some c → (c == '.' || c == '/') = false))
    ∧ candidatesOf reg (matchText h) = (regKeys reg).filter (fun p => strEnds p ("/" ++ matchText h)) := by
  refine ⟨?_, ?_, rfl⟩
  · intro hs; simp [matchText, hs]
  · intro hs
    refine ⟨?_, ?_, ?_⟩
    · simp only [matchText, hs, if_true, lstripDotSlash]
      exact (List.takeWhile_append_dropWhile _ _).symm
    · intro c hc
      have hpc := List.mem_takeWhile_imp hc
      exact hpc
    · intro c hc
      simp only [matchText, hs, if_true, lstripDotSlash] at hc
      exact dropWhile_head_not _ _ c hc

/-- Witness for C4 (amended): the raw text `../X.h` strips to `X.h`, whose
candidate in registry `A/X.h` is found. -/
theorem c4_amended_strip_all_leading_dots_witness :
    ("../X.h").data = ("../X.h").data.takeWhile (fun c => c == '.' || c == '/') ++ (matchText "../X.h").data
    ∧ candidatesOf [("A/X.h", 0)] (matchText "../X.h") = ["A/X.h"] := by
  refine ⟨?_, by decide⟩
  exact ((c4_amended_strip_all_leading_dots "../X.h" [("A/X.h", 0)]).2.1 (by decide)).1

/-- The unused report in registry order, as a filter-and-map. -/
theorem checkUnused_eq (reg : Registry) :
    checkUnused reg = (reg.filter (fun p => p.2 == 0)).map (fun p => dUnused p.1) := by
  induction reg with
  | nil => rfl
  | cons p rest ih =>
    obtain ⟨a, c⟩ := p
    by_cases hc : c = 0
    · subst hc
      simp [checkUnused, List.filterMap_cons, List.filter_cons] at ih ⊢
      exact ih
    · simp [checkUnused, List.filterMap_cons, List.filter_cons, hc] at ih ⊢
      exact ih

/-- The unused-line formatter is injective. -/
theorem dUnused_inj : Function.Injective dUnused := by
  intro a b e
  have e2 := congrArg String.data e
  simp only [dUnused, String.data_append] at e2
  have e3 : a.data = b.data := List.append_cancel_right e2
  cases a
  cases b
  exact congrArg String.mk e3

/-- C5 (amended): the unused report lists every zero-count entry exactly
once with line number 0, lists nothing else, and follows the registry's
own (insertion) order — which is the directory enumeration's order, not
necessarily lexicographic. -/
theorem c5_amended_unused_report (reg : Registry) (hnd : (regKeys reg).Nodup) :
    (∀ h, (h, 0) ∈ reg → (checkUnused reg).count (dUnused h) = 1)
    ∧ (∀ s ∈ checkUnused reg, ∃ h, (h, 0) ∈ reg ∧ s = dUnused h)
    ∧ checkUnused reg = (reg.filter (fun p => p.2 == 0)).map (fun p => dUnused p.1) := by
  refine ⟨?_, ?_, checkUnused_eq reg⟩
  · intro h hmem
    rw [checkUnused_eq]
    have hmap : (reg.filter (fun p => p.2 == 0)).map (fun p => dUnused p.1)
        = ((reg.filter (fun p => p.2 == 0)).map Prod.fst).map dUnused := by
      rw [List.map_map]
      rfl
    rw [hmap, List.count_map_of_injective _ dUnused dUnused_inj]
    have hsub : ((reg.filter (fun p => p.2 == 0)).map Prod.fst).Sublist (reg.map Prod.fst) :=
      (List.filter_sublist reg).map Prod.fst
    have hnd2 : ((reg.filter (fun p => p.2 == 0)).map Prod.fst).Nodup := hnd.sublist hsub
    have hin : h ∈ (reg.filter (fun p => p.2 == 0)).map Prod.fst :=
      List.mem_map.mpr ⟨(h, 0), List.mem_filter.mpr ⟨hmem, rfl⟩, rfl⟩
    exact List.count_eq_one_of_mem hnd2 hin
  · intro s hs
    rw [checkUnused_eq] at hs
    obtain ⟨p, hp, rfl⟩ := List.mem_map.mp hs
    obtain ⟨hpin, hz⟩ := List.mem_filter.mp hp
    obtain ⟨p1, p2⟩ := p
    have : p2 = 0 := by simpa using hz
    subst this
    exact ⟨p1, hpin, rfl⟩

/-- Witness for C5 (amended): a two-entry registry in reverse order. -/
theorem c5_amended_unused_report_witness :
    (regKeys [("B.h", 0), ("A.h", 1)]).Nodup
    ∧ (checkUnused [("B.h", 0), ("A.h", 1)]).count (dUnused "B.h") = 1 := by
  refine ⟨by decide, ?_⟩
  exact (c5_amended_unused_report [("B.h", 0), ("A.h", 1)] (by decide)).1 "B.h" (by decide)

/-- Lexicographic strict order on character lists is asymmetric. -/
theorem lexLtB_asymm : ∀ as bs : List Char, lexLtB as bs = true → lexLtB bs as = false := by
  intro as
  induction as with
  | nil =>
    intro bs h
    cases bs with
    | nil => simp [lexLtB] at h
    | cons b bs => simp [lexLtB]
  | cons a as ih =>
    intro bs h
    cases bs with
    | nil => simp [lexLtB] at h
    | cons b bs =>
      simp only [lexLtB] at h ⊢
      by_cases h1 : a.toNat < b.toNat
      · rw [if_neg (by omega), if_pos h1]
      · by_cases h2 : b.toNat < a.toNat
        · rw [if_neg h1, if_pos h2] at h
          exact absurd h (by simp)
        · rw [if_neg h1, if_neg h2] at h
          rw [if_neg h2, if_neg h1]
          exact ih bs h

/-- Lexicographic strict order on component lists is asymmetric. -/
theorem compsLtB_asymm : ∀ as bs : List String, compsLtB as bs = true → compsLtB bs as = false := by
  intro as
  induction as with
  | nil =>
    intro bs h
    cases bs with
    | nil => simp [compsLtB] at h
    | cons b bs => simp [compsLtB]
  | cons a as ih =>
    intro bs h
    cases bs with
    | nil => simp [compsLtB] at h
    | cons b bs =>
      simp only [compsLtB] at h ⊢
      by_cases h1 : strLtB a b = true
      · have h2 : strLtB b a = false := lexLtB_asymm a.data b.data h1
        rw [if_neg (by simp [h2]), if_pos h1]
      · by_cases h2 : strLtB b a = true
        · rw [if_neg h1, if_pos h2] at h
          exact absurd h (by simp)
        · rw [if_neg h1, if_neg h2] at h
          rw [if_neg h2, if_neg h1]
          exact ih bs h

/-- The non-strict parts-tuple order on paths is total. -/
theorem pathLeB_total (a b : String) : pathLeB a b = true ∨ pathLeB b a = true := by
  unfold pathLeB pathLtB
  by_cases h : compsLtB (pathParts b) (pathParts a) = true
  · right
    rw [compsLtB_asymm _ _ h]
    rfl
  · left
    simp only [Bool.not_eq_true] at h
    rw [h]
    rfl

/-- Inserting into a list that is nondecreasing in parts-tuple order keeps
it nondecreasing. -/
theorem pathChainLeB_insertPLe (x : String) :
    ∀ l, pathChainLeB l = true → pathChainLeB (insertPLe x l) = true := by
  intro l
  induction l with
  | nil => intro _; simp [insertPLe, pathChainLeB]
  | cons y ys ih =>
    intro hch
    by_cases hxy : pathLeB x y = true
    · simp only [insertPLe, hxy, if_true]
      simp [pathChainLeB, hxy, hch]
    · have hyx : pathLeB y x = true := (pathLeB_total x y).resolve_left hxy
      simp only [insertPLe, hxy, if_false]
      cases ys with
      | nil => simp [insertPLe, pathChainLeB, hyx]
      | cons z zs =>
        have hyz : pathLeB y z = true := by
          simp [pathChainLeB] at hch
          exact hch.1
        have hcz : pathChainLeB (z :: zs) = true := by
          simp [pathChainLeB] at hch
          exact hch.2
        have hrec := ih hcz
        by_cases hxz : pathLeB x z = true
        · simp only [insertPLe, hxz, if_true] at hrec ⊢
          simp [pathChainLeB, hyx, hxz, hcz]
        · simp only [insertPLe, hxz, if_false] at hrec ⊢
          simp [pathChainLeB] at hrec ⊢
          exact ⟨hyz, hrec⟩

/-- The model of Python `sorted` over `Path` objects produces a list that
is nondecreasing in parts-tuple order. -/
theorem pathChainLeB_sortPLe : ∀ l, pathChainLeB (sortPLe l) = true := by
  intro l
  induction l with
  | nil => rfl
  | cons x xs ih => exact pathChainLeB_insertPLe x (sortPLe xs) ih

/-- C6 (amended): the main walk keeps the enumeration's own order — it is
exactly the enumeration filtered by the source-suffix pattern, a sublist
of the enumeration — while only the `CMakeLists.txt` scan sorts its file
list (as `Path` objects, i.e. in parts-tuple order); byte-identical
output across runs therefore needs a stable enumeration order, which
`rglob` does not sort. -/
theorem c6_amended_walk_order (enum : List String) :
    List.Sublist (walkOrder enum) enum
    ∧ (∀ f, f ∈ walkOrder enum ↔ f ∈ enum ∧ isSourceFile f = true)
    ∧ pathChainLeB (cmakeOrder enum) = true := by
  refine ⟨List.filter_sublist enum, ?_, pathChainLeB_sortPLe _⟩
  intro f
  exact List.mem_filter

/-- A successful match of the include-line pattern pins down the line's
start: the keyword, then the matched delimiter, which is `"` or `<`. -/
theorem matchIncludeL_sound (l : List Char) (d : Char) (t : List Char)
    (hm : matchIncludeL l = some (d, t)) :
    ("#include ".data ++ [d]).isPrefixOf l = true ∧ (d = '"' ∨ d = '<') := by
  unfold matchIncludeL at hm
  by_cases hpre : ("#include ".data).isPrefixOf l = true
  · rw [if_pos hpre] at hm
    cases hdrop : l.drop 9 with
    | nil =>
      rw [hdrop] at hm
      exact absurd hm (by simp)
    | cons d0 tail =>
      simp only [hdrop] at hm
      by_cases hds : (d0 == '"' || d0 == '<') = true
      · rw [if_pos hds] at hm
        cases hlc : lastCloser tail with
        | none =>
          rw [hlc] at hm
          exact absurd hm (by simp)
        | some k =>
          simp only [hlc] at hm
          by_cases hk : 1 ≤ k
          · rw [if_pos hk] at hm
            have hpair : d0 = d ∧ tail.take k = t := by
              simpa using hm
            obtain ⟨hd0, -⟩ := hpair
            subst hd0
            constructor
            · have hpre2 : "#include ".data <+: l := by
                exact List.isPrefixOf_iff_prefix.mp hpre
              obtain ⟨r, hr⟩ := hpre2
              have hlen9 : ("#include ".data).length = 9 := by decide
              have hdrop9 : l.drop 9 = r := by
                rw [← hr, ← hlen9, List.drop_left]
              rw [hdrop] at hdrop9
              have hl : ("#include ".data ++ [d0]) ++ tail = l := by
                rw [← hr, ← hdrop9]
                simp
              rw [ List.isPrefixOf_iff_prefix]
              exact ⟨tail, hl⟩
            · simpa using hds
          · rw [if_neg hk] at hm
            exact absurd hm (by simp)
      · rw [if_neg hds] at hm
        exact absurd hm (by simp)
  · rw [if_neg hpre] at hm
    exact absurd hm (by simp)

/-- C10: a line is recognized as an include directive only when it starts
at column 0 with `#include ` followed by the delimiter `"` or `<` (the
style is that delimiter); a directive whose closing delimiter does not
match its opening one, such as `#include "vector>`, is accepted and
yields the same delimiter and text as the well-formed `#include
"vector"`. -/
theorem c10_include_recognizer :
    (∀ (line : String) (c : Char) (h : String), matchInclude line = some (c, h) →
      ("#include ".data ++ [c]).isPrefixOf line.data = true ∧ (c = '"' ∨ c = '<'))
    ∧ matchInclude "#include \"vector>" = some ('"', "vector")
    ∧ matchInclude "#include \"vector\"" = some ('"', "vector") := by
  refine ⟨?_, by decide, by decide⟩
  intro line c h hm
  unfold matchInclude at hm
  cases hML : matchIncludeL line.data with
  | none =>
    rw [hML] at hm
    exact absurd hm (by simp)
  | some p =>
    obtain ⟨d, t⟩ := p
    simp only [hML] at hm
    have hm2 : d = c ∧ String.mk t = h := by
      simpa using hm
    obtain ⟨hd, -⟩ := hm2
    subst hd
    exact matchIncludeL_sound line.data d t hML

/-- Witness for C10: `#include <a.h>` is recognized with delimiter `<`,
and the keyword-plus-delimiter prefix is confirmed. -/
theorem c10_include_recognizer_witness :
    matchInclude "#include <a.h>" = some ('<', "a.h")
    ∧ ("#include ".data ++ ['<']).isPrefixOf ("#include <a.h>").data = true := by
  refine ⟨by decide, ?_⟩
  exact (c10_include_recognizer.1 "#include <a.h>" '<' "a.h" (by decide)).1

/-- Witness for C6 (amended): a concrete enumeration, left alone by the
main walk, sorted in parts-tuple order by the build-list scan — on the
pair distinguishing the orders, `proj/Tutorials/x/CMakeLists.txt` sorts
before `proj/Tutorials-old/CMakeLists.txt` as paths although the plain
strings compare the other way around. -/
theorem c6_amended_walk_order_witness :
    List.Sublist (walkOrder ["proj/b.cxx", "proj/a.cxx", "proj/n.txt"]) ["proj/b.cxx", "proj/a.cxx", "proj/n.txt"]
    ∧ pathChainLeB (cmakeOrder ["proj/Tutorials-old/CMakeLists.txt", "proj/Tutorials/x/CMakeLists.txt"]) = true
    ∧ cmakeOrder ["proj/Tutorials-old/CMakeLists.txt", "proj/Tutorials/x/CMakeLists.txt"]
        = ["proj/Tutorials/x/CMakeLists.txt", "proj/Tutorials-old/CMakeLists.txt"] :=
  ⟨(c6_amended_walk_order ["proj/b.cxx", "proj/a.cxx", "proj/n.txt"]).1,
   (c6_amended_walk_order ["proj/Tutorials-old/CMakeLists.txt", "proj/Tutorials/x/CMakeLists.txt"]).2.2,
   by decide⟩
